import Mathlib

/-!
Shallow embedding of `src/field_data_processor.py` (class `FieldDataProcessor`).

A pandas DataFrame is modelled as a rectangular `Table`: a list of column
names together with rows of cell values, each row aligned positionally with
the column list.  Cell values are strings, integers, or null (pandas NaN).
Python exceptions raised by a step are modelled with `Except PyError`.
The two external collaborators (`query_data` for `ingest_sql_data` and
`read_from_web_CSV` for `weather_station_mapping`) are pure I/O wrappers and
enter the embedding as `Except PyError Table` parameters: their result if the
call succeeded, or the error they raised.
-/

namespace FieldData

/-- A cell value: a string, an integer, or null (pandas NaN / missing). -/
inductive Value where
  | str : String → Value
  | int : Int → Value
  | null : Value
deriving DecidableEq, Repr

/-- An in-memory table: named columns and rows of cells, row-major. -/
structure Table where
  cols : List String
  rows : List (List Value)
deriving DecidableEq, Repr

/-- Python-level errors raised by the pipeline steps. -/
inductive PyError where
  | keyError : String → PyError
  | typeError : PyError
  | indexError : PyError
  | dataSourceError : PyError
  | fetchError : PyError
deriving DecidableEq, Repr

/-- Index of the first column with the given name (pandas column lookup). -/
def colIdx (name : String) : List String → Option Nat
  | [] => none
  | c :: cs => if c = name then some 0 else (colIdx name cs).map (· + 1)

/-- The `while temp_name in self.df.columns: temp_name += "_"` loop of
`rename_columns` (lines 107-109), with an explicit fuel bound on the number
of iterations. -/
def tempLoop (cols : List String) : Nat → String → String
  | 0, temp => temp
  | fuel + 1, temp => if temp ∈ cols then tempLoop cols fuel (temp ++ "_") else temp

/-- The temporary placeholder name chosen by `rename_columns` for the swap:
start from the literal of line 107 and append an underscore while the
candidate is still a column name.  `cols.length + 1` iterations always
suffice, since the candidates are pairwise distinct. -/
def mkTempName (cols : List String) : String :=
  tempLoop cols (cols.length + 1) "__temp_name_for_swap__"

/-- The swap body of `rename_columns` (lines 106-113): two successive pandas
renames, the first sending `column1` to the temporary name and `column2` to
`column1`, the second sending the temporary name to `column2`.  A pandas
`rename` maps every matching column label and silently ignores labels absent
from the table; when `column1 = column2` the Python dict literal
`{column1: temp_name, column2: column1}` collapses to the later entry, which
the first branch of the inner conditional reproduces. -/
def swapCols (column1 column2 : String) (t : Table) : Table :=
  let temp := mkTempName t.cols
  let cols1 := t.cols.map fun c =>
    if c = column2 then column1 else if c = column1 then temp else c
  { cols := cols1.map fun c => if c = temp then column2 else c
    rows := t.rows }

/-- `rename_columns` (lines 91-113): take the first key and the first value
of `columns_to_rename` (an insertion-ordered association list standing for
the Python dict) and swap those two column names; on an empty mapping the
`[0]` subscript of line 103 raises `IndexError`. -/
def rename_columns (columns_to_rename : List (String × String)) (t : Table) :
    Except PyError Table :=
  match columns_to_rename with
  | [] => .error .indexError
  | (k, v) :: _ => .ok (swapCols k v t)

/-- Cell-level semantics of pandas `Series.abs` (line 133): the absolute
value of an integer, NaN stays NaN, and a string raises `TypeError`. -/
def absValue : Value → Except PyError Value
  | .str _ => .error .typeError
  | .int n => .ok (.int |n|)
  | .null => .ok .null

/-- Total companion of `absValue` on the values it accepts. -/
def vAbs : Value → Value
  | .int n => .int |n|
  | v => v

/-- `self.df[abs_column].abs()` over the rows: apply `absValue` to the cell
at index `i` of every row, raising the first error encountered. -/
def absRows (i : Nat) : List (List Value) → Except PyError (List (List Value))
  | [] => .ok []
  | r :: rs =>
    match absValue (r.getD i Value.null) with
    | .error e => .error e
    | .ok v =>
      match absRows i rs with
      | .error e => .error e
      | .ok rs2 => .ok (r.set i v :: rs2)

/-- Drop the leading whitespace characters of a character list. -/
def dropLeadingWS : List Char → List Char
  | [] => []
  | c :: cs => if c.isWhitespace then dropLeadingWS cs else c :: cs

/-- Python `str.strip()`: remove leading and trailing whitespace. -/
def pyStrip (s : String) : String :=
  String.mk ((dropLeadingWS ((dropLeadingWS s.data).reverse)).reverse)

/-- Cell-level semantics of pandas `.str.strip()` (line 134): strip the
whitespace of a string; any non-string cell (NaN included) becomes NaN. -/
def stripValue : Value → Value
  | .str s => .str (pyStrip s)
  | _ => .null

/-- Cell-level semantics of line 135, `values_to_rename.get(crop, crop)`:
a string cell is looked up in the mapping and replaced when found, any
other cell is returned unchanged. -/
def mapValue (values_to_rename : List (String × String)) : Value → Value
  | .str s =>
    match values_to_rename.lookup s with
    | some w => .str w
    | none => .str s
  | v => v

/-- Apply a total cell transform to the cell at index `i` of every row. -/
def mapCol (i : Nat) (f : Value → Value) (rows : List (List Value)) :
    List (List Value) :=
  rows.map fun r => r.set i (f (r.getD i Value.null))

/-- `apply_corrections` (lines 116-135): first take the absolute value of the
`abs_column` (raising `KeyError` when the column is absent and `TypeError`
when it holds a string), then strip the `column_name` column, then rename
its values through `values_to_rename`.  The column lookups happen in source
order: `abs_column` on line 133 before `column_name` on line 134. -/
def apply_corrections (values_to_rename : List (String × String))
    (column_name abs_column : String) (t : Table) : Except PyError Table :=
  match colIdx abs_column t.cols with
  | none => .error (.keyError abs_column)
  | some ai =>
    match absRows ai t.rows with
    | .error e => .error e
    | .ok rows1 =>
      match colIdx column_name t.cols with
      | none => .error (.keyError column_name)
      | some ci =>
        .ok { cols := t.cols
              rows := mapCol ci (mapValue values_to_rename)
                        (mapCol ci stripValue rows1) }

/-- `apply_corrections` as executed on the mutable `self.df` (lines
133-135): the pair of the error raised (if any) and the value of `self.df`
when the call returns or aborts.  Each line first evaluates its right-hand
side — which is where any exception fires — and only then assigns the
column, so a `KeyError` at line 134 (missing `column_name`) leaves the
line-133 magnitude update already committed, while an error at line 133
itself (missing or non-numeric `abs_column`) leaves the table untouched.
The pure view `apply_corrections` above is the `(none, ·)` fragment of this
function. -/
def apply_corrections_state (values_to_rename : List (String × String))
    (column_name abs_column : String) (t : Table) : Option PyError × Table :=
  match colIdx abs_column t.cols with
  | none => (some (.keyError abs_column), t)
  | some ai =>
    match absRows ai t.rows with
    | .error e => (some e, t)
    | .ok rows1 =>
      match colIdx column_name t.cols with
      | none => (some (.keyError column_name), { cols := t.cols, rows := rows1 })
      | some ci =>
        (none, { cols := t.cols
                 rows := mapCol ci (mapValue values_to_rename)
                           (mapCol ci stripValue rows1) })

/-- `weather_station_mapping` (lines 138-149): `fetched` is the outcome of
`read_from_web_CSV`; the lookup table is restricted to its `Field_ID` and
`Weather_station` columns (raising `KeyError` when one is absent) and then
left-merged into the current table on `Field_ID`: every current row is kept
in order; each match contributes its `Weather_station` value, a row with no
match receives null, and several matches fan the row out. -/
def weather_station_mapping (fetched : Except PyError Table) (t : Table) :
    Except PyError Table :=
  match fetched with
  | .error e => .error e
  | .ok wsd =>
    match colIdx "Field_ID" wsd.cols, colIdx "Weather_station" wsd.cols,
          colIdx "Field_ID" t.cols with
    | some ki, some wi, some ti =>
      .ok { cols := t.cols ++ ["Weather_station"]
            rows := t.rows.flatMap fun r =>
              let ms := wsd.rows.filter fun m =>
                decide (m.getD ki Value.null = r.getD ti Value.null)
              if ms.isEmpty then [r ++ [Value.null]]
              else ms.map fun m => r ++ [m.getD wi Value.null] }
    | none, _, _ => .error (.keyError "Field_ID")
    | some _, none, _ => .error (.keyError "Weather_station")
    | some _, some _, none => .error (.keyError "Field_ID")

/-- `process` (lines 152-174): run the four steps in order on the mutable
`self.df`.  `ingest` is the outcome of the external query of
`ingest_sql_data`, `fetched` the outcome of the external CSV fetch, and
`df0` the value of `self.df` before the call.  The result pairs the final
value of `self.df` with the error that aborted the run, if any: an exception
in a step leaves `self.df` as that step last wrote it, which for
`apply_corrections` (modelled by `apply_corrections_state`) can be a
mid-step table with the magnitude correction already committed.  The other
steps raise before their first assignment to `self.df`, so their failures
leave the previous step's table. -/
def process (ingest : Except PyError Table)
    (columns_to_rename values_to_rename : List (String × String))
    (fetched : Except PyError Table) (df0 : Option Table) :
    Option Table × Option PyError :=
  match ingest with
  | .error e => (df0, some e)
  | .ok t1 =>
    match rename_columns columns_to_rename t1 with
    | .error e => (some t1, some e)
    | .ok t2 =>
      match apply_corrections_state values_to_rename "Crop_type" "Elevation" t2 with
      | (some e, td) => (some td, some e)
      | (none, t3) =>
        match weather_station_mapping fetched t3 with
        | .error e => (some t3, some e)
        | .ok t4 => (some t4, none)

instance {ε α : Type} [DecidableEq ε] [DecidableEq α] : DecidableEq (Except ε α) :=
  fun a b =>
    match a, b with
    | .error e1, .error e2 =>
      if h : e1 = e2 then .isTrue (by rw [h])
      else .isFalse fun hc => h (by cases hc; rfl)
    | .ok t1, .ok t2 =>
      if h : t1 = t2 then .isTrue (by rw [h])
      else .isFalse fun hc => h (by cases hc; rfl)
    | .error _, .ok _ => .isFalse fun hc => Except.noConfusion hc
    | .ok _, .error _ => .isFalse fun hc => Except.noConfusion hc

/-! ### Facts about the temporary placeholder name -/

theorem countP_len_succ_lt (cols : List String) (temp : String) (h : temp ∈ cols) :
    cols.countP (fun c => decide (temp.length + 1 ≤ c.length)) <
      cols.countP (fun c => decide (temp.length ≤ c.length)) := by
  induction cols with
  | nil => cases h
  | cons a l ih =>
    rw [List.mem_cons] at h
    rw [List.countP_cons, List.countP_cons]
    rcases h with h | h
    · subst h
      have h1 : decide (temp.length + 1 ≤ temp.length) = false := by
        simp
      have h2 : decide (temp.length ≤ temp.length) = true := by simp
      rw [h1, h2]
      have hmono : l.countP (fun c => decide (temp.length + 1 ≤ c.length)) ≤
          l.countP (fun c => decide (temp.length ≤ c.length)) := by
        apply List.countP_mono_left
        intro x _ hx
        simp only [decide_eq_true_eq] at hx ⊢
        omega
      have e1 : (if (false = true) then 1 else 0) = 0 := rfl
      have e2 : (if (true = true) then 1 else 0) = 1 := rfl
      rw [e1, e2]
      omega
    · have hmono : (if decide (temp.length + 1 ≤ a.length) = true then 1 else 0) ≤
          (if decide (temp.length ≤ a.length) = true then 1 else 0) := by
        by_cases hx : temp.length + 1 ≤ a.length
        · have : temp.length ≤ a.length := by omega
          simp [hx, this]
        · simp [hx]
      have := ih h
      omega

theorem tempLoop_not_mem (cols : List String) :
    ∀ (fuel : Nat) (temp : String),
      cols.countP (fun c => decide (temp.length ≤ c.length)) < fuel →
      tempLoop cols fuel temp ∉ cols := by
  intro fuel
  induction fuel with
  | zero => intro temp h; omega
  | succ n ih =>
    intro temp h
    by_cases hm : temp ∈ cols
    · rw [tempLoop, if_pos hm]
      apply ih
      have hlt := countP_len_succ_lt cols temp hm
      have hlen : (temp ++ "_").length = temp.length + 1 := by
        rw [String.length_append]
        rfl
      rw [hlen]
      omega
    · rw [tempLoop, if_neg hm]
      exact hm

theorem mkTempName_not_mem (cols : List String) : mkTempName cols ∉ cols := by
  apply tempLoop_not_mem
  have h := List.countP_le_length
    (fun c => decide (("__temp_name_for_swap__" : String).length ≤ c.length))
    (l := cols)
  omega

/-! ### Facts about column lookup -/

theorem colIdx_get (name : String) :
    ∀ (cols : List String) (i : Nat), colIdx name cols = some i →
      ∃ h : i < cols.length, cols.get ⟨i, h⟩ = name := by
  intro cols
  induction cols with
  | nil => intro i h; simp [colIdx] at h
  | cons c cs ih =>
    intro i h
    by_cases hc : c = name
    · rw [colIdx, if_pos hc] at h
      cases h
      exact ⟨Nat.succ_pos _, hc⟩
    · rw [colIdx, if_neg hc] at h
      rw [Option.map_eq_some'] at h
      obtain ⟨j, hj, hji⟩ := h
      obtain ⟨hlt, hget⟩ := ih j hj
      subst hji
      exact ⟨Nat.succ_lt_succ hlt, hget⟩

theorem colIdx_ne (n1 n2 : String) (cols : List String) (i j : Nat)
    (h1 : colIdx n1 cols = some i) (h2 : colIdx n2 cols = some j)
    (hne : n1 ≠ n2) : i ≠ j := by
  obtain ⟨hi, hgi⟩ := colIdx_get n1 cols i h1
  obtain ⟨hj, hgj⟩ := colIdx_get n2 cols j h2
  intro he
  subst he
  exact hne (hgi ▸ hgj ▸ rfl)

/-! ### Generic list access lemmas -/

theorem getD_map_lt {α : Type} (d : α) (f : α → α) :
    ∀ (l : List α) (n : Nat), n < l.length →
      (l.map f).getD n d = f (l.getD n d) := by
  intro l
  induction l with
  | nil => intro n h; simp at h
  | cons r rs ih =>
    intro n h
    cases n with
    | zero => rfl
    | succ m =>
      rw [List.map_cons, List.getD_cons_succ, List.getD_cons_succ]
      exact ih m (by simpa using h)

theorem getD_set_ne {α : Type} (d : α) :
    ∀ (r : List α) (i j : Nat) (v : α), i ≠ j →
      (r.set i v).getD j d = r.getD j d := by
  intro r
  induction r with
  | nil => intro i j v _; rfl
  | cons a l ih =>
    intro i j v hne
    cases i with
    | zero =>
      cases j with
      | zero => exact absurd rfl hne
      | succ m => rfl
    | succ k =>
      cases j with
      | zero => rfl
      | succ m =>
        rw [List.set_cons_succ, List.getD_cons_succ, List.getD_cons_succ]
        exact ih k m v (fun h => hne (by rw [h]))

theorem getD_set_self_lt {α : Type} (d : α) :
    ∀ (r : List α) (i : Nat) (v : α), i < r.length →
      (r.set i v).getD i d = v := by
  intro r
  induction r with
  | nil => intro i v h; simp at h
  | cons a l ih =>
    intro i v h
    cases i with
    | zero => rfl
    | succ k =>
      rw [List.set_cons_succ, List.getD_cons_succ]
      exact ih k v (by simpa using h)

theorem set_of_length_le {α : Type} :
    ∀ (r : List α) (i : Nat) (v : α), r.length ≤ i → r.set i v = r := by
  intro r
  induction r with
  | nil => intro i v _; rfl
  | cons a l ih =>
    intro i v h
    cases i with
    | zero => simp at h
    | succ k =>
      rw [List.set_cons_succ]
      rw [ih k v (by simpa using h)]

theorem set_getD_self {α : Type} (d : α) :
    ∀ (r : List α) (i : Nat), r.set i (r.getD i d) = r := by
  intro r
  induction r with
  | nil => intro i; rfl
  | cons a l ih =>
    intro i
    cases i with
    | zero => rfl
    | succ k =>
      rw [List.getD_cons_succ, List.set_cons_succ, ih k]

/-! ### Characterization of the column swap -/

theorem swapCols_rows (column1 column2 : String) (t : Table) :
    (swapCols column1 column2 t).rows = t.rows := rfl

theorem swapCols_cols (column1 column2 : String) (t : Table)
    (h1 : column1 ∈ t.cols) :
    (swapCols column1 column2 t).cols =
      t.cols.map fun c =>
        if c = column1 then column2 else if c = column2 then column1 else c := by
  unfold swapCols
  simp only [List.map_map]
  apply List.map_congr_left
  intro c hc
  have htemp := mkTempName_not_mem t.cols
  have hct : c ≠ mkTempName t.cols := fun h => htemp (h ▸ hc)
  have h1t : column1 ≠ mkTempName t.cols := fun h => htemp (h ▸ h1)
  simp only [Function.comp_apply]
  by_cases e2 : c = column2
  · rw [if_pos e2, if_neg h1t]
    by_cases e1 : c = column1
    · rw [if_pos e1]
      exact e1.symm.trans e2
    · rw [if_neg e1, if_pos e2]
  · rw [if_neg e2]
    by_cases e1 : c = column1
    · rw [if_pos e1, if_pos rfl, if_pos e1]
    · rw [if_neg e1, if_neg hct, if_neg e1, if_neg e2]

theorem swapCols_cols_of_fst_absent (column1 column2 : String) (t : Table)
    (h1 : column1 ∉ t.cols) (hne : column1 ≠ mkTempName t.cols) :
    (swapCols column1 column2 t).cols =
      t.cols.map fun c => if c = column2 then column1 else c := by
  unfold swapCols
  simp only [List.map_map]
  apply List.map_congr_left
  intro c hc
  have htemp := mkTempName_not_mem t.cols
  have hct : c ≠ mkTempName t.cols := fun h => htemp (h ▸ hc)
  have hc1 : c ≠ column1 := fun h => h1 (h ▸ hc)
  simp only [Function.comp_apply]
  by_cases e2 : c = column2
  · rw [if_pos e2, if_neg hne, if_pos e2]
  · rw [if_neg e2, if_neg hc1, if_neg hct, if_neg e2]

/-- Claim C1: with a single-entry `columns_to_rename` map whose source and
target are both column names of the table, `rename_columns` swaps the two
names — each occurrence of the source name becomes the target name and vice
versa, every other column name and all rows are unchanged — and the
temporary placeholder name used for the swap collides with no existing
column. -/
theorem rename_columns_swaps (src tgt : String) (t : Table)
    (hs : src ∈ t.cols) (ht : tgt ∈ t.cols) :
    ∃ t2, rename_columns [(src, tgt)] t = .ok t2 ∧
      t2.cols = (t.cols.map fun c =>
        if c = src then tgt else if c = tgt then src else c) ∧
      t2.rows = t.rows ∧ mkTempName t.cols ∉ t.cols :=
  ⟨swapCols src tgt t, rfl, swapCols_cols src tgt t hs, rfl,
    mkTempName_not_mem t.cols⟩

theorem rename_columns_swaps_witness :
    ("Elevation" : String) ∈ ["Field_ID", "Crop_type", "Elevation"] ∧
    ("Crop_type" : String) ∈ ["Field_ID", "Crop_type", "Elevation"] ∧
    ∃ t2, rename_columns [("Elevation", "Crop_type")]
        (Table.mk ["Field_ID", "Crop_type", "Elevation"] [[.int 1]]) = .ok t2 ∧
      t2.cols = ((Table.mk ["Field_ID", "Crop_type", "Elevation"]
          [[.int 1]]).cols.map fun c =>
        if c = "Elevation" then "Crop_type"
        else if c = "Crop_type" then "Elevation" else c) ∧
      t2.rows = (Table.mk ["Field_ID", "Crop_type", "Elevation"] [[.int 1]]).rows ∧
      mkTempName (Table.mk ["Field_ID", "Crop_type", "Elevation"] [[.int 1]]).cols ∉
        (Table.mk ["Field_ID", "Crop_type", "Elevation"] [[.int 1]]).cols :=
  ⟨by decide, by decide,
    rename_columns_swaps "Elevation" "Crop_type"
      (Table.mk ["Field_ID", "Crop_type", "Elevation"] [[.int 1]])
      (by decide) (by decide)⟩

theorem swapFun_tgt (src tgt : String) :
    (if tgt = src then tgt else if tgt = tgt then src else tgt) = src := by
  by_cases e : tgt = src
  · rw [if_pos e, e]
  · rw [if_neg e, if_pos rfl]

theorem swapFun_invol (src tgt c : String) :
    (if (if c = src then tgt else if c = tgt then src else c) = src then tgt
     else if (if c = src then tgt else if c = tgt then src else c) = tgt then src
     else (if c = src then tgt else if c = tgt then src else c)) = c := by
  by_cases e1 : c = src
  · rw [if_pos e1]
    by_cases e : tgt = src
    · rw [if_pos e, e, e1]
    · rw [if_neg e, if_pos rfl, e1]
  · rw [if_neg e1]
    by_cases e2 : c = tgt
    · rw [if_pos e2, if_pos rfl, e2]
    · rw [if_neg e2, if_neg e1, if_neg e2]

/-- Claim C7: swapping is an involution — applying `rename_columns` twice
with the same single-entry configuration on a table containing both columns
restores the original column names (and rows). -/
theorem rename_columns_involution (src tgt : String) (t : Table)
    (hs : src ∈ t.cols) (ht : tgt ∈ t.cols) :
    ∃ t1 t2, rename_columns [(src, tgt)] t = .ok t1 ∧
      rename_columns [(src, tgt)] t1 = .ok t2 ∧
      t2.cols = t.cols ∧ t2.rows = t.rows := by
  refine ⟨swapCols src tgt t, swapCols src tgt (swapCols src tgt t), rfl, rfl, ?_, rfl⟩
  have h1 : src ∈ (swapCols src tgt t).cols := by
    rw [swapCols_cols src tgt t hs]
    exact List.mem_map.mpr ⟨tgt, ht, swapFun_tgt src tgt⟩
  rw [swapCols_cols src tgt _ h1, swapCols_cols src tgt t hs, List.map_map]
  have hid : ∀ c ∈ t.cols,
      ((fun c => if c = src then tgt else if c = tgt then src else c) ∘
       (fun c => if c = src then tgt else if c = tgt then src else c)) c = id c :=
    fun c _ => swapFun_invol src tgt c
  rw [List.map_congr_left hid, List.map_id]

theorem rename_columns_involution_witness :
    ("A" : String) ∈ ["A", "B", "C"] ∧ ("B" : String) ∈ ["A", "B", "C"] ∧
    ∃ t1 t2, rename_columns [("A", "B")] (Table.mk ["A", "B", "C"] []) = .ok t1 ∧
      rename_columns [("A", "B")] t1 = .ok t2 ∧
      t2.cols = (Table.mk ["A", "B", "C"] []).cols ∧
      t2.rows = (Table.mk ["A", "B", "C"] []).rows :=
  ⟨by decide, by decide,
    rename_columns_involution "A" "B" (Table.mk ["A", "B", "C"] [])
      (by decide) (by decide)⟩

/-- Claim C9: with a multi-entry `columns_to_rename` map, `rename_columns`
reads only the first key and the first value (insertion order) and swaps
just that pair: the call behaves exactly as with the single first entry, and
the resulting column names depend only on that pair, so every column not
named by it is unchanged. -/
theorem rename_columns_first_entry (k v : String)
    (rest : List (String × String)) (t : Table)
    (hk : k ∈ t.cols) :
    rename_columns ((k, v) :: rest) t = rename_columns [(k, v)] t ∧
    ∃ t2, rename_columns ((k, v) :: rest) t = .ok t2 ∧
      t2.cols = (t.cols.map fun c =>
        if c = k then v else if c = v then k else c) ∧
      t2.rows = t.rows :=
  ⟨rfl, swapCols k v t, rfl, swapCols_cols k v t hk, rfl⟩

theorem rename_columns_first_entry_witness :
    ("A" : String) ∈ ["A", "B", "C", "D"] ∧
    (rename_columns [("A", "B"), ("C", "D")] (Table.mk ["A", "B", "C", "D"] []) =
        rename_columns [("A", "B")] (Table.mk ["A", "B", "C", "D"] []) ∧
      ∃ t2, rename_columns [("A", "B"), ("C", "D")]
          (Table.mk ["A", "B", "C", "D"] []) = .ok t2 ∧
        t2.cols = ((Table.mk ["A", "B", "C", "D"] []).cols.map fun c =>
          if c = "A" then "B" else if c = "B" then "A" else c) ∧
        t2.rows = (Table.mk ["A", "B", "C", "D"] []).rows) :=
  ⟨by decide,
    rename_columns_first_entry "A" "B" [("C", "D")]
      (Table.mk ["A", "B", "C", "D"] []) (by decide)⟩

/-- Claim C3, counterexample: on a table lacking the rename target ("C"),
`rename_columns` does not fail at all — no `SchemaError`-like error is
raised; instead the source column is silently renamed one-way, and a full
`process` run with this configuration completes every later step rather than
aborting, leaving the table far from its post-load state. -/
theorem rename_columns_missing_counterexample :
    rename_columns [("B", "C")]
        (Table.mk ["Field_ID", "Crop_type", "Elevation", "B"]
          [[.int 1, .str "x", .int (-3), .int 0]]) =
      .ok (Table.mk ["Field_ID", "Crop_type", "Elevation", "C"]
        [[.int 1, .str "x", .int (-3), .int 0]]) ∧
    (Table.mk ["Field_ID", "Crop_type", "Elevation", "C"]
        [[.int 1, .str "x", .int (-3), .int 0]]) ≠
      (Table.mk ["Field_ID", "Crop_type", "Elevation", "B"]
        [[.int 1, .str "x", .int (-3), .int 0]]) ∧
    process
        (.ok (Table.mk ["Field_ID", "Crop_type", "Elevation", "B"]
          [[.int 1, .str "x", .int (-3), .int 0]]))
        [("B", "C")] []
        (.ok (Table.mk ["Field_ID", "Weather_station"] [[.int 1, .str "S"]]))
        none =
      (some (Table.mk
          ["Field_ID", "Crop_type", "Elevation", "C", "Weather_station"]
          [[.int 1, .str "x", .int 3, .int 0, .str "S"]]), none) := by
  refine ⟨by decide, by decide, by decide⟩

/-- Claim C3, amended: when the table lacks one of the two column names of
the single-entry `columns_to_rename` map, `rename_columns` raises no error
(pandas `rename` silently ignores absent labels): if the target is absent
the source column is renamed one-way to the target, and if the source is
absent (and differs from the temporary placeholder) the target column is
renamed one-way to the source; rows are untouched, so `process` does not
abort at the rename step. -/
theorem rename_columns_missing_no_error (src tgt : String) (t : Table) :
    (tgt ∉ t.cols → src ∈ t.cols →
      ∃ t2, rename_columns [(src, tgt)] t = .ok t2 ∧
        t2.cols = (t.cols.map fun c => if c = src then tgt else c) ∧
        t2.rows = t.rows) ∧
    (src ∉ t.cols → src ≠ mkTempName t.cols →
      ∃ t2, rename_columns [(src, tgt)] t = .ok t2 ∧
        t2.cols = (t.cols.map fun c => if c = tgt then src else c) ∧
        t2.rows = t.rows) := by
  constructor
  · intro htgt hsrc
    refine ⟨swapCols src tgt t, rfl, ?_, rfl⟩
    rw [swapCols_cols src tgt t hsrc]
    apply List.map_congr_left
    intro c hc
    have hct : c ≠ tgt := fun h => htgt (h ▸ hc)
    by_cases e1 : c = src
    · rw [if_pos e1, if_pos e1]
    · rw [if_neg e1, if_neg hct, if_neg e1]
  · intro hsrc hne
    exact ⟨swapCols src tgt t, rfl, swapCols_cols_of_fst_absent src tgt t hsrc hne, rfl⟩

theorem rename_columns_missing_no_error_witness :
    (("C" : String) ∉ ["A", "B"]) ∧ (("A" : String) ∈ ["A", "B"]) ∧
    ∃ t2, rename_columns [("A", "C")] (Table.mk ["A", "B"] [[.int 7]]) = .ok t2 ∧
      t2.cols = ((Table.mk ["A", "B"] [[.int 7]]).cols.map fun c =>
        if c = "A" then "C" else c) ∧
      t2.rows = (Table.mk ["A", "B"] [[.int 7]]).rows :=
  ⟨by decide, by decide,
    (rename_columns_missing_no_error "A" "C" (Table.mk ["A", "B"] [[.int 7]])).1
      (by decide) (by decide)⟩

/-! ### Characterization of `apply_corrections` -/

theorem absValue_ok_of_not_str (v : Value) (h : ∀ s, v ≠ .str s) :
    absValue v = .ok (vAbs v) := by
  cases v with
  | str s => exact absurd rfl (h s)
  | int n => rfl
  | null => rfl

theorem absValue_ok_elim (v w : Value) (h : absValue v = .ok w) :
    w = vAbs v ∧ ∀ s, v ≠ .str s := by
  cases v with
  | str s => cases h
  | int n => cases h; exact ⟨rfl, fun s hs => Value.noConfusion hs⟩
  | null => cases h; exact ⟨rfl, fun s hs => Value.noConfusion hs⟩

theorem absRows_of_no_str (i : Nat) :
    ∀ rows : List (List Value),
      (∀ r ∈ rows, ∀ s, r.getD i Value.null ≠ .str s) →
      absRows i rows = .ok (rows.map fun r => r.set i (vAbs (r.getD i Value.null))) := by
  intro rows
  induction rows with
  | nil => intro _; rfl
  | cons r rs ih =>
    intro h
    rw [absRows, absValue_ok_of_not_str _ (h r (List.mem_cons_self r rs)),
      ih fun x hx => h x (List.mem_cons_of_mem r hx)]
    rfl

theorem absRows_ok_elim (i : Nat) :
    ∀ (rows rows1 : List (List Value)), absRows i rows = .ok rows1 →
      (∀ r ∈ rows, ∀ s, r.getD i Value.null ≠ .str s) ∧
      rows1 = rows.map fun r => r.set i (vAbs (r.getD i Value.null)) := by
  intro rows
  induction rows with
  | nil =>
    intro rows1 h
    cases h
    exact ⟨fun r hr => absurd hr (List.not_mem_nil r), rfl⟩
  | cons r rs ih =>
    intro rows1 h
    rw [absRows] at h
    cases hv : absValue (r.getD i Value.null) with
    | error e => rw [hv] at h; cases h
    | ok v =>
      rw [hv] at h
      cases hrs : absRows i rs with
      | error e => rw [hrs] at h; cases h
      | ok rs2 =>
        rw [hrs] at h
        cases h
        obtain ⟨hstr, hrest⟩ := ih rs2 hrs
        obtain ⟨hvv, hvstr⟩ := absValue_ok_elim _ _ hv
        constructor
        · intro x hx
          rcases List.mem_cons.mp hx with hx | hx
          · exact hx ▸ hvstr
          · exact hstr x hx
        · rw [List.map_cons, hvv, hrest]

theorem apply_corrections_elim (vmap : List (String × String))
    (cn ac : String) (t t2 : Table)
    (h : apply_corrections vmap cn ac t = .ok t2) :
    ∃ ai ci, colIdx ac t.cols = some ai ∧ colIdx cn t.cols = some ci ∧
      (∀ r ∈ t.rows, ∀ s, r.getD ai Value.null ≠ .str s) ∧
      t2.cols = t.cols ∧
      t2.rows = mapCol ci (mapValue vmap) (mapCol ci stripValue
        (t.rows.map fun r => r.set ai (vAbs (r.getD ai Value.null)))) := by
  rw [apply_corrections] at h
  split at h
  · cases h
  next ai hai =>
    split at h
    · cases h
    next rows1 habs =>
      split at h
      · cases h
      next ci hci =>
        cases h
        obtain ⟨hstr, hrows⟩ := absRows_ok_elim ai t.rows rows1 habs
        exact ⟨ai, ci, hai, hci, hstr, rfl, by rw [hrows]⟩

theorem mapCol_length (i : Nat) (f : Value → Value) (rows : List (List Value)) :
    (mapCol i f rows).length = rows.length := List.length_map rows _

theorem getD_mapCol_lt (i : Nat) (f : Value → Value) (rows : List (List Value))
    (n : Nat) (h : n < rows.length) :
    (mapCol i f rows).getD n [] =
      (rows.getD n []).set i (f ((rows.getD n []).getD i Value.null)) :=
  getD_map_lt [] _ rows n h

/-- The cell of the magnitude column after `apply_corrections`: at every row
position it is the `vAbs` of the original cell. -/
theorem apply_corrections_cell_abs (vmap : List (String × String))
    (cn ac : String) (t t2 : Table) (ai : Nat)
    (hai : colIdx ac t.cols = some ai)
    (hne : ac ≠ cn)
    (h : apply_corrections vmap cn ac t = .ok t2) :
    ∀ n : Nat, (t2.rows.getD n []).getD ai Value.null =
      vAbs ((t.rows.getD n []).getD ai Value.null) := by
  obtain ⟨ai2, ci, hai2, hci, hstr, hcols, hrows⟩ :=
    apply_corrections_elim vmap cn ac t t2 h
  have e1 : ai2 = ai := by
    rw [hai2] at hai
    exact Option.some.inj hai
  rw [e1] at hai2 hrows
  have hic : ai ≠ ci := colIdx_ne ac cn t.cols ai ci hai2 hci hne
  intro n
  by_cases hn : n < t.rows.length
  · have h1 : n < (t.rows.map fun r => r.set ai (vAbs (r.getD ai Value.null))).length := by
      rw [List.length_map]; exact hn
    have h2 : n < (mapCol ci stripValue
        (t.rows.map fun r => r.set ai (vAbs (r.getD ai Value.null)))).length := by
      rw [mapCol_length, List.length_map]; exact hn
    rw [hrows, getD_mapCol_lt ci (mapValue vmap) _ n h2,
      getD_mapCol_lt ci stripValue _ n h1,
      getD_map_lt [] _ t.rows n hn]
    rw [getD_set_ne Value.null _ ci ai _ (fun hh => hic hh.symm),
      getD_set_ne Value.null _ ci ai _ (fun hh => hic hh.symm)]
    set r := t.rows.getD n [] with hr
    by_cases hin : ai < r.length
    · rw [getD_set_self_lt Value.null r ai _ hin]
    · have hge : r.length ≤ ai := by omega
      rw [set_of_length_le r ai _ hge, List.getD_eq_default r Value.null hge]
      rfl
  · have hlen : t2.rows.length = t.rows.length := by
      rw [hrows, mapCol_length, mapCol_length, List.length_map]
    have hge1 : t2.rows.length ≤ n := by omega
    have hge2 : t.rows.length ≤ n := by omega
    rw [List.getD_eq_default _ _ hge1, List.getD_eq_default _ _ hge2]
    rfl

/-- The cell of the categorical column after `apply_corrections`: at every
row position it is the original cell stripped and then renamed. -/
theorem apply_corrections_cell_cat (vmap : List (String × String))
    (cn ac : String) (t t2 : Table) (ci : Nat)
    (hci : colIdx cn t.cols = some ci)
    (hne : ac ≠ cn)
    (h : apply_corrections vmap cn ac t = .ok t2) :
    ∀ n : Nat, (t2.rows.getD n []).getD ci Value.null =
      mapValue vmap (stripValue ((t.rows.getD n []).getD ci Value.null)) := by
  obtain ⟨ai, ci2, hai, hci2, hstr, hcols, hrows⟩ :=
    apply_corrections_elim vmap cn ac t t2 h
  have e1 : ci2 = ci := by
    rw [hci2] at hci
    exact Option.some.inj hci
  rw [e1] at hci2 hrows
  have hic : ai ≠ ci := colIdx_ne ac cn t.cols ai ci hai hci2 hne
  intro n
  by_cases hn : n < t.rows.length
  · have h1 : n < (t.rows.map fun r => r.set ai (vAbs (r.getD ai Value.null))).length := by
      rw [List.length_map]; exact hn
    have h2 : n < (mapCol ci stripValue
        (t.rows.map fun r => r.set ai (vAbs (r.getD ai Value.null)))).length := by
      rw [mapCol_length, List.length_map]; exact hn
    rw [hrows, getD_mapCol_lt ci (mapValue vmap) _ n h2,
      getD_mapCol_lt ci stripValue _ n h1,
      getD_map_lt [] _ t.rows n hn]
    rw [getD_set_ne Value.null _ ai ci _ hic]
    set r := t.rows.getD n [] with hr
    set r2 := r.set ai (vAbs (r.getD ai Value.null)) with hr2
    by_cases hin : ci < r.length
    · have hin2 : ci < r2.length := by rw [hr2, List.length_set]; exact hin
      have hin3 : ci < (r2.set ci (stripValue (r.getD ci Value.null))).length := by
        rw [List.length_set]; exact hin2
      rw [getD_set_self_lt Value.null r2 ci _ hin2,
        getD_set_self_lt Value.null _ ci _ hin3]
    · have hge : r.length ≤ ci := by omega
      have hge2 : r2.length ≤ ci := by rw [hr2, List.length_set]; exact hge
      have hd : r.getD ci Value.null = Value.null :=
        List.getD_eq_default r Value.null hge
      rw [set_of_length_le r2 ci _ hge2, set_of_length_le r2 ci _ hge2,
        List.getD_eq_default r2 Value.null hge2, hd]
      rfl
  · have hlen : t2.rows.length = t.rows.length := by
      rw [hrows, mapCol_length, mapCol_length, List.length_map]
    have hge1 : t2.rows.length ≤ n := by omega
    have hge2 : t.rows.length ≤ n := by omega
    rw [List.getD_eq_default _ _ hge1, List.getD_eq_default _ _ hge2]
    rfl

/-- Claim C4: after `apply_corrections`, every cell of the magnitude column
(default `Elevation`) that was the integer `k` is now `|k|`, and every
integer in that column of the result is nonnegative. -/
theorem apply_corrections_abs_column (vmap : List (String × String))
    (t t2 : Table) (i : Nat) (hi : colIdx "Elevation" t.cols = some i)
    (h : apply_corrections vmap "Crop_type" "Elevation" t = .ok t2) :
    (∀ n k, (t.rows.getD n []).getD i Value.null = Value.int k →
      (t2.rows.getD n []).getD i Value.null = Value.int |k|) ∧
    (∀ n m, (t2.rows.getD n []).getD i Value.null = Value.int m → 0 ≤ m) := by
  have hcell := apply_corrections_cell_abs vmap "Crop_type" "Elevation" t t2 i hi
    (by decide) h
  constructor
  · intro n k hk
    rw [hcell n, hk]
    rfl
  · intro n m hm
    rw [hcell n] at hm
    cases hv : (t.rows.getD n []).getD i Value.null with
    | str s => rw [hv] at hm; simp [vAbs] at hm
    | int k =>
      rw [hv] at hm
      rw [show vAbs (Value.int k) = Value.int |k| from rfl] at hm
      injection hm with h2
      rw [← h2]
      exact abs_nonneg k
    | null => rw [hv] at hm; simp [vAbs] at hm

theorem apply_corrections_abs_column_witness :
    colIdx "Elevation" (Table.mk ["Field_ID", "Crop_type", "Elevation"]
        [[.int 1, .str " maize", .int (-120)]]).cols = some 2 ∧
    apply_corrections [("maize", "Maize")] "Crop_type" "Elevation"
        (Table.mk ["Field_ID", "Crop_type", "Elevation"]
          [[.int 1, .str " maize", .int (-120)]]) =
      .ok (Table.mk ["Field_ID", "Crop_type", "Elevation"]
        [[.int 1, .str "Maize", .int 120]]) ∧
    (((Table.mk ["Field_ID", "Crop_type", "Elevation"]
        [[.int 1, .str "Maize", .int 120]]).rows.getD 0 []).getD 2 Value.null =
      Value.int |(-120 : Int)|) ∧
    (0 : Int) ≤ 120 :=
  ⟨by decide, by decide,
    (apply_corrections_abs_column [("maize", "Maize")]
      (Table.mk ["Field_ID", "Crop_type", "Elevation"]
        [[.int 1, .str " maize", .int (-120)]])
      (Table.mk ["Field_ID", "Crop_type", "Elevation"]
        [[.int 1, .str "Maize", .int 120]])
      2 (by decide) (by decide)).1 0 (-120) (by decide),
    (apply_corrections_abs_column [("maize", "Maize")]
      (Table.mk ["Field_ID", "Crop_type", "Elevation"]
        [[.int 1, .str " maize", .int (-120)]])
      (Table.mk ["Field_ID", "Crop_type", "Elevation"]
        [[.int 1, .str "Maize", .int 120]])
      2 (by decide) (by decide)).2 0 120 (by decide)⟩

/-- Claim C5: after `apply_corrections`, every cell of the categorical
column (default `Crop_type`) that was the string `s` is now: `s` stripped of
leading and trailing whitespace, then replaced through `values_to_rename`
when the stripped value is a key, and otherwise left as the stripped value
(pass-through, not an error). -/
theorem apply_corrections_categorical (vmap : List (String × String))
    (t t2 : Table) (ci : Nat) (hci : colIdx "Crop_type" t.cols = some ci)
    (h : apply_corrections vmap "Crop_type" "Elevation" t = .ok t2) :
    ∀ n s, (t.rows.getD n []).getD ci Value.null = Value.str s →
      (t2.rows.getD n []).getD ci Value.null =
        Value.str (match vmap.lookup (pyStrip s) with
                   | some w => w
                   | none => pyStrip s) := by
  have hcell := apply_corrections_cell_cat vmap "Crop_type" "Elevation" t t2 ci hci
    (by decide) h
  intro n s hs
  rw [hcell n, hs]
  cases hl : vmap.lookup (pyStrip s) with
  | some w => simp only [stripValue, mapValue, hl]
  | none => simp only [stripValue, mapValue, hl]

theorem apply_corrections_categorical_witness :
    colIdx "Crop_type" (Table.mk ["Field_ID", "Crop_type", "Elevation"]
        [[.int 1, .str " maize", .int (-120)]]).cols = some 1 ∧
    apply_corrections [("maize", "Maize")] "Crop_type" "Elevation"
        (Table.mk ["Field_ID", "Crop_type", "Elevation"]
          [[.int 1, .str " maize", .int (-120)]]) =
      .ok (Table.mk ["Field_ID", "Crop_type", "Elevation"]
        [[.int 1, .str "Maize", .int 120]]) ∧
    (((Table.mk ["Field_ID", "Crop_type", "Elevation"]
        [[.int 1, .str " maize", .int (-120)]]).rows.getD 0 []).getD 1 Value.null =
      Value.str " maize") ∧
    (((Table.mk ["Field_ID", "Crop_type", "Elevation"]
        [[.int 1, .str "Maize", .int 120]]).rows.getD 0 []).getD 1 Value.null =
      Value.str (match [("maize", "Maize")].lookup (pyStrip " maize") with
                 | some w => w
                 | none => pyStrip " maize")) :=
  ⟨by decide, by decide, by decide,
    apply_corrections_categorical [("maize", "Maize")]
      (Table.mk ["Field_ID", "Crop_type", "Elevation"]
        [[.int 1, .str " maize", .int (-120)]])
      (Table.mk ["Field_ID", "Crop_type", "Elevation"]
        [[.int 1, .str "Maize", .int 120]])
      1 (by decide) (by decide) 0 " maize" (by decide)⟩

/-- Claim C10: `apply_corrections` only touches the categorical and the
magnitude columns — the column names, the row count, the length of every
row, and every cell outside those two column positions are unchanged. -/
theorem apply_corrections_frame (vmap : List (String × String))
    (t t2 : Table) (i ci : Nat)
    (hi : colIdx "Elevation" t.cols = some i)
    (hci : colIdx "Crop_type" t.cols = some ci)
    (h : apply_corrections vmap "Crop_type" "Elevation" t = .ok t2) :
    t2.cols = t.cols ∧
    t2.rows.length = t.rows.length ∧
    (∀ n, (t2.rows.getD n []).length = (t.rows.getD n []).length) ∧
    (∀ n k, k ≠ i → k ≠ ci →
      (t2.rows.getD n []).getD k Value.null =
        (t.rows.getD n []).getD k Value.null) := by
  obtain ⟨ai, ci2, hai, hci2, hstr, hcols, hrows⟩ :=
    apply_corrections_elim vmap "Crop_type" "Elevation" t t2 h
  have e1 : ai = i := by rw [hai] at hi; exact Option.some.inj hi
  have e2 : ci2 = ci := by rw [hci2] at hci; exact Option.some.inj hci
  rw [e1, e2] at hrows
  have hlen : t2.rows.length = t.rows.length := by
    rw [hrows, mapCol_length, mapCol_length, List.length_map]
  refine ⟨hcols, hlen, ?_, ?_⟩
  · intro n
    by_cases hn : n < t.rows.length
    · have h1 : n < (t.rows.map fun r => r.set i (vAbs (r.getD i Value.null))).length := by
        rw [List.length_map]; exact hn
      have h2 : n < (mapCol ci stripValue
          (t.rows.map fun r => r.set i (vAbs (r.getD i Value.null)))).length := by
        rw [mapCol_length, List.length_map]; exact hn
      rw [hrows, getD_mapCol_lt ci (mapValue vmap) _ n h2,
        getD_mapCol_lt ci stripValue _ n h1,
        getD_map_lt [] _ t.rows n hn,
        List.length_set, List.length_set, List.length_set]
    · have hge1 : t2.rows.length ≤ n := by omega
      have hge2 : t.rows.length ≤ n := by omega
      rw [List.getD_eq_default _ _ hge1, List.getD_eq_default _ _ hge2]
  · intro n k hki hkci
    by_cases hn : n < t.rows.length
    · have h1 : n < (t.rows.map fun r => r.set i (vAbs (r.getD i Value.null))).length := by
        rw [List.length_map]; exact hn
      have h2 : n < (mapCol ci stripValue
          (t.rows.map fun r => r.set i (vAbs (r.getD i Value.null)))).length := by
        rw [mapCol_length, List.length_map]; exact hn
      rw [hrows, getD_mapCol_lt ci (mapValue vmap) _ n h2,
        getD_mapCol_lt ci stripValue _ n h1,
        getD_map_lt [] _ t.rows n hn,
        getD_set_ne Value.null _ ci k _ (fun hh => hkci hh.symm),
        getD_set_ne Value.null _ ci k _ (fun hh => hkci hh.symm),
        getD_set_ne Value.null _ i k _ (fun hh => hki hh.symm)]
    · have hge1 : t2.rows.length ≤ n := by omega
      have hge2 : t.rows.length ≤ n := by omega
      rw [List.getD_eq_default _ _ hge1, List.getD_eq_default _ _ hge2]

theorem apply_corrections_frame_witness :
    colIdx "Elevation" (Table.mk ["Field_ID", "Crop_type", "Elevation"]
        [[.int 1, .str " maize", .int (-120)]]).cols = some 2 ∧
    colIdx "Crop_type" (Table.mk ["Field_ID", "Crop_type", "Elevation"]
        [[.int 1, .str " maize", .int (-120)]]).cols = some 1 ∧
    apply_corrections [("maize", "Maize")] "Crop_type" "Elevation"
        (Table.mk ["Field_ID", "Crop_type", "Elevation"]
          [[.int 1, .str " maize", .int (-120)]]) =
      .ok (Table.mk ["Field_ID", "Crop_type", "Elevation"]
        [[.int 1, .str "Maize", .int 120]]) ∧
    (Table.mk ["Field_ID", "Crop_type", "Elevation"]
        [[.int 1, .str "Maize", .int 120]]).cols =
      (Table.mk ["Field_ID", "Crop_type", "Elevation"]
        [[.int 1, .str " maize", .int (-120)]]).cols ∧
    (((Table.mk ["Field_ID", "Crop_type", "Elevation"]
        [[.int 1, .str "Maize", .int 120]]).rows.getD 0 []).getD 0 Value.null =
      ((Table.mk ["Field_ID", "Crop_type", "Elevation"]
        [[.int 1, .str " maize", .int (-120)]]).rows.getD 0 []).getD 0 Value.null) :=
  ⟨by decide, by decide, by decide,
    (apply_corrections_frame [("maize", "Maize")]
      (Table.mk ["Field_ID", "Crop_type", "Elevation"]
        [[.int 1, .str " maize", .int (-120)]])
      (Table.mk ["Field_ID", "Crop_type", "Elevation"]
        [[.int 1, .str "Maize", .int 120]])
      2 1 (by decide) (by decide) (by decide)).1,
    (apply_corrections_frame [("maize", "Maize")]
      (Table.mk ["Field_ID", "Crop_type", "Elevation"]
        [[.int 1, .str " maize", .int (-120)]])
      (Table.mk ["Field_ID", "Crop_type", "Elevation"]
        [[.int 1, .str "Maize", .int 120]])
      2 1 (by decide) (by decide) (by decide)).2.2.2 0 0
      (by decide) (by decide)⟩

/-! ### Idempotence of `apply_corrections` -/

/-- Claim C8, counterexample: `apply_corrections` is not idempotent on the
categorical column even when every value lies in the range of
`values_to_rename`.  With `values_to_rename = {"x": "y "}` the first
application turns `" x"` into `"y "` — a value in the range of the map —
but the second application strips it to `"y"`, changing the table again. -/
theorem apply_corrections_not_idempotent :
    apply_corrections [("x", "y ")] "Crop_type" "Elevation"
        (Table.mk ["Field_ID", "Crop_type", "Elevation"]
          [[.int 1, .str " x", .int 5]]) =
      .ok (Table.mk ["Field_ID", "Crop_type", "Elevation"]
        [[.int 1, .str "y ", .int 5]]) ∧
    ("y " ∈ [("x", "y ")].map Prod.snd) ∧
    apply_corrections [("x", "y ")] "Crop_type" "Elevation"
        (Table.mk ["Field_ID", "Crop_type", "Elevation"]
          [[.int 1, .str "y ", .int 5]]) =
      .ok (Table.mk ["Field_ID", "Crop_type", "Elevation"]
        [[.int 1, .str "y", .int 5]]) ∧
    (Table.mk ["Field_ID", "Crop_type", "Elevation"]
        [[.int 1, .str "y", .int 5]]) ≠
      (Table.mk ["Field_ID", "Crop_type", "Elevation"]
        [[.int 1, .str "y ", .int 5]]) := by
  refine ⟨by decide, by decide, by decide, by decide⟩

theorem mapCol_id (i : Nat) (f : Value → Value) (rows : List (List Value))
    (h : ∀ r ∈ rows, f (r.getD i Value.null) = r.getD i Value.null) :
    mapCol i f rows = rows := by
  unfold mapCol
  have hcong : ∀ r ∈ rows, r.set i (f (r.getD i Value.null)) = id r := by
    intro r hr
    rw [h r hr, set_getD_self]
    rfl
  rw [List.map_congr_left hcong, List.map_id]

theorem mapStrip_shape (vmap : List (String × String)) (v : Value) :
    (∃ s, mapValue vmap (stripValue v) = Value.str s) ∨
      mapValue vmap (stripValue v) = Value.null := by
  cases v with
  | str s =>
    left
    cases hl : vmap.lookup (pyStrip s) with
    | some w => exact ⟨w, by simp only [stripValue, mapValue, hl]⟩
    | none => exact ⟨pyStrip s, by simp only [stripValue, mapValue, hl]⟩
  | int n => right; rfl
  | null => right; rfl

/-- Claim C8, amended: `apply_corrections` is idempotent on the magnitude
column unconditionally (the absolute value of an already-corrected cell is
itself), and idempotent on the categorical column provided every corrected
categorical value is already whitespace-free and is not remapped to a
different value by `values_to_rename`; under these conditions a second
application returns the corrected table unchanged.  (The original claim's
premise — every value lies in the range of `values_to_rename` — is not
enough: a range value with surrounding whitespace, or one that is itself a
key, is changed again by the second application.) -/
theorem apply_corrections_idempotent (vmap : List (String × String))
    (t t2 : Table) (i ci : Nat)
    (hi : colIdx "Elevation" t.cols = some i)
    (hci : colIdx "Crop_type" t.cols = some ci)
    (h : apply_corrections vmap "Crop_type" "Elevation" t = .ok t2)
    (hfix : ∀ r ∈ t2.rows, ∀ s, r.getD ci Value.null = Value.str s →
      pyStrip s = s ∧ (vmap.lookup s = none ∨ vmap.lookup s = some s)) :
    apply_corrections vmap "Crop_type" "Elevation" t2 = .ok t2 := by
  obtain ⟨ai, ci2, hai, hci2, hstr, hcols, hrows⟩ :=
    apply_corrections_elim vmap "Crop_type" "Elevation" t t2 h
  have e1 : ai = i := by rw [hai] at hi; exact Option.some.inj hi
  have e2 : ci2 = ci := by rw [hci2] at hci; exact Option.some.inj hci
  rw [e1] at hai hstr hrows
  rw [e2] at hci2 hrows
  have hic : i ≠ ci :=
    colIdx_ne "Elevation" "Crop_type" t.cols i ci hai hci2 (by decide)
  -- every row of t2 is a triple update of a row of t
  have hmem : ∀ r ∈ t2.rows, ∃ r0 ∈ t.rows,
      r = ((r0.set i (vAbs (r0.getD i Value.null))).set ci
            (stripValue ((r0.set i (vAbs (r0.getD i Value.null))).getD ci Value.null))).set ci
          (mapValue vmap (((r0.set i (vAbs (r0.getD i Value.null))).set ci
            (stripValue ((r0.set i (vAbs (r0.getD i Value.null))).getD ci Value.null))).getD ci
              Value.null)) := by
    intro r hr
    rw [hrows] at hr
    unfold mapCol at hr
    rw [List.mem_map] at hr
    obtain ⟨r1, hr1, hrq⟩ := hr
    rw [List.mem_map] at hr1
    obtain ⟨r2, hr2, hr1q⟩ := hr1
    rw [List.mem_map] at hr2
    obtain ⟨r0, hr0, hr2q⟩ := hr2
    subst hr2q
    subst hr1q
    subst hrq
    exact ⟨r0, hr0, rfl⟩
  -- the magnitude cell of every row of t2 is a non-string fixed by vAbs
  have hcell_i : ∀ r ∈ t2.rows, (∀ s, r.getD i Value.null ≠ Value.str s) ∧
      vAbs (r.getD i Value.null) = r.getD i Value.null := by
    intro r hr
    obtain ⟨r0, hr0, hq⟩ := hmem r hr
    subst hq
    rw [getD_set_ne Value.null _ ci i _ (fun hh => hic hh.symm),
      getD_set_ne Value.null _ ci i _ (fun hh => hic hh.symm)]
    by_cases hlt : i < r0.length
    · rw [getD_set_self_lt Value.null r0 i _ hlt]
      cases hc : r0.getD i Value.null with
      | str s => exact absurd hc (hstr r0 hr0 s)
      | int k =>
        constructor
        · intro s hs
          simp [vAbs] at hs
        · simp [vAbs, abs_abs]
      | null => exact ⟨fun s hs => Value.noConfusion hs, rfl⟩
    · have hge : r0.length ≤ i := by omega
      rw [set_of_length_le r0 i _ hge, List.getD_eq_default r0 Value.null hge]
      exact ⟨fun s hs => Value.noConfusion hs, rfl⟩
  -- the categorical cell of every row of t2 is fixed by strip and rename
  have hcell_ci : ∀ r ∈ t2.rows,
      stripValue (r.getD ci Value.null) = r.getD ci Value.null ∧
      mapValue vmap (r.getD ci Value.null) = r.getD ci Value.null := by
    intro r hr
    have hshape : (∃ s, r.getD ci Value.null = Value.str s) ∨
        r.getD ci Value.null = Value.null := by
      obtain ⟨r0, hr0, hq⟩ := hmem r hr
      subst hq
      by_cases hlt : ci < r0.length
      · have hl1 : ci < (r0.set i (vAbs (r0.getD i Value.null))).length := by
          rw [List.length_set]; exact hlt
        have hl2 : ci < ((r0.set i (vAbs (r0.getD i Value.null))).set ci
            (stripValue ((r0.set i (vAbs (r0.getD i Value.null))).getD ci
              Value.null))).length := by
          rw [List.length_set]; exact hl1
        rw [getD_set_self_lt Value.null _ ci _ hl2,
          getD_set_self_lt Value.null _ ci _ hl1,
          getD_set_ne Value.null _ i ci _ hic]
        exact mapStrip_shape vmap (r0.getD ci Value.null)
      · have hge : r0.length ≤ ci := by omega
        have hge1 : (r0.set i (vAbs (r0.getD i Value.null))).length ≤ ci := by
          rw [List.length_set]; exact hge
        rw [set_of_length_le _ ci _ hge1, set_of_length_le _ ci _ hge1,
          List.getD_eq_default _ Value.null hge1]
        right
        rfl
    rcases hshape with ⟨s, hs⟩ | hnull
    · obtain ⟨htrim, hlook⟩ := hfix r hr s hs
      constructor
      · rw [hs]
        simp only [stripValue, htrim]
      · rw [hs]
        rcases hlook with hl | hl
        · simp only [mapValue, hl]
        · simp only [mapValue, hl]
    · rw [hnull]
      exact ⟨rfl, rfl⟩
  -- the second application leaves every intermediate row list unchanged
  have habs2 : absRows i t2.rows = .ok t2.rows := by
    have hid : mapCol i vAbs t2.rows = t2.rows :=
      mapCol_id i vAbs t2.rows fun r hr => (hcell_i r hr).2
    unfold mapCol at hid
    rw [absRows_of_no_str i t2.rows fun r hr => (hcell_i r hr).1, hid]
  have hstrip2 : mapCol ci stripValue t2.rows = t2.rows :=
    mapCol_id ci stripValue t2.rows fun r hr => (hcell_ci r hr).1
  have hmapv2 : mapCol ci (mapValue vmap) t2.rows = t2.rows :=
    mapCol_id ci (mapValue vmap) t2.rows fun r hr => (hcell_ci r hr).2
  have hcidx1 : colIdx "Elevation" t2.cols = some i := by rw [hcols]; exact hi
  have hcidx2 : colIdx "Crop_type" t2.cols = some ci := by rw [hcols]; exact hci
  rw [apply_corrections]
  split
  next hnone => rw [hcidx1] at hnone; cases hnone
  next ai2 hai2 =>
    have eai : ai2 = i := by
      rw [hcidx1] at hai2
      exact (Option.some.inj hai2).symm
    subst eai
    split
    next e habs3 => rw [habs2] at habs3; cases habs3
    next rows1 habs3 =>
      have erows : rows1 = t2.rows := by
        rw [habs2] at habs3
        exact ((Except.ok.injEq _ _).mp habs3).symm
      subst erows
      split
      next hnone => rw [hcidx2] at hnone; cases hnone
      next ci3 hci3 =>
        have eci : ci3 = ci := by
          rw [hcidx2] at hci3
          exact (Option.some.inj hci3).symm
        subst eci
        rw [hstrip2, hmapv2]

theorem apply_corrections_idempotent_witness :
    colIdx "Elevation" (Table.mk ["Field_ID", "Crop_type", "Elevation"]
        [[.int 1, .str "maize ", .int (-7)]]).cols = some 2 ∧
    colIdx "Crop_type" (Table.mk ["Field_ID", "Crop_type", "Elevation"]
        [[.int 1, .str "maize ", .int (-7)]]).cols = some 1 ∧
    apply_corrections [("maize", "Maize")] "Crop_type" "Elevation"
        (Table.mk ["Field_ID", "Crop_type", "Elevation"]
          [[.int 1, .str "maize ", .int (-7)]]) =
      .ok (Table.mk ["Field_ID", "Crop_type", "Elevation"]
        [[.int 1, .str "Maize", .int 7]]) ∧
    apply_corrections [("maize", "Maize")] "Crop_type" "Elevation"
        (Table.mk ["Field_ID", "Crop_type", "Elevation"]
          [[.int 1, .str "Maize", .int 7]]) =
      .ok (Table.mk ["Field_ID", "Crop_type", "Elevation"]
        [[.int 1, .str "Maize", .int 7]]) :=
  ⟨by decide, by decide, by decide,
    apply_corrections_idempotent [("maize", "Maize")]
      (Table.mk ["Field_ID", "Crop_type", "Elevation"]
        [[.int 1, .str "maize ", .int (-7)]])
      (Table.mk ["Field_ID", "Crop_type", "Elevation"]
        [[.int 1, .str "Maize", .int 7]])
      2 1 (by decide) (by decide) (by decide)
      (by
        intro r hr s hs
        have hr2 : r = [Value.int 1, Value.str "Maize", Value.int 7] := by
          rcases List.mem_singleton.mp hr with h2
          exact h2
        subst hr2
        have hs2 : s = "Maize" := by
          have : Value.str "Maize" = Value.str s := hs
          exact (Value.str.inj this).symm
        subst hs2
        exact ⟨by decide, Or.inl (by decide)⟩)⟩

/-! ### The left join of `weather_station_mapping` -/

theorem flatMap_eq_map {α β : Type} (g : α → List β) (f : α → β) :
    ∀ l : List α, (∀ r ∈ l, g r = [f r]) → l.flatMap g = l.map f := by
  intro l
  induction l with
  | nil => intro _; rfl
  | cons a as ih =>
    intro h
    rw [List.flatMap_cons, List.map_cons, h a (List.mem_cons_self a as),
      ih fun r hr => h r (List.mem_cons_of_mem a hr)]
    rfl

theorem filter_key_unique (ws : List (List Value)) (ki : Nat) (k : Value)
    (h : (ws.map fun m => m.getD ki Value.null).Nodup) :
    ws.filter (fun m => decide (m.getD ki Value.null = k)) = [] ∨
    ∃ m, ws.filter (fun m => decide (m.getD ki Value.null = k)) = [m] := by
  induction ws with
  | nil => left; rfl
  | cons a l ih =>
    rw [List.map_cons, List.nodup_cons] at h
    obtain ⟨ha, hl⟩ := h
    by_cases hk : a.getD ki Value.null = k
    · right
      refine ⟨a, ?_⟩
      rw [List.filter_cons, if_pos (by simp only [decide_eq_true_eq]; exact hk)]
      have hnil : l.filter (fun m => decide (m.getD ki Value.null = k)) = [] := by
        rw [List.filter_eq_nil_iff]
        intro m hm hpm
        apply ha
        rw [decide_eq_true_eq] at hpm
        rw [hk, ← hpm]
        exact List.mem_map_of_mem _ hm
      rw [hnil]
    · rcases ih hl with h0 | ⟨m, hm⟩
      · left
        rw [List.filter_cons, if_neg (by simp only [decide_eq_true_eq]; exact hk), h0]
      · right
        exact ⟨m, by rw [List.filter_cons, if_neg (by simp only [decide_eq_true_eq]; exact hk), hm]⟩

/-- Claim C2: when the fetched lookup table has unique `Field_ID` values,
`weather_station_mapping` is a left outer join using only the lookup's
`Field_ID` and `Weather_station` columns: the result keeps exactly the rows
of the current table in order (same row count), each row whose `Field_ID`
matches a lookup row gains that row's `Weather_station` value, and each row
with no match is kept with a null `Weather_station` instead of being
dropped. -/
theorem weather_station_mapping_left_join (wsd t : Table) (ki wi ti : Nat)
    (hki : colIdx "Field_ID" wsd.cols = some ki)
    (hwi : colIdx "Weather_station" wsd.cols = some wi)
    (hti : colIdx "Field_ID" t.cols = some ti)
    (hnocol : "Weather_station" ∉ t.cols)
    (huniq : (wsd.rows.map fun m => m.getD ki Value.null).Nodup) :
    ∃ t2, weather_station_mapping (.ok wsd) t = .ok t2 ∧
      t2.cols = t.cols ++ ["Weather_station"] ∧
      t2.rows.length = t.rows.length ∧
      t2.rows = t.rows.map fun r => r ++
        [match wsd.rows.filter (fun m =>
            decide (m.getD ki Value.null = r.getD ti Value.null)) with
         | [] => Value.null
         | m :: _ => m.getD wi Value.null] := by
  have hrun : weather_station_mapping (.ok wsd) t =
      .ok { cols := t.cols ++ ["Weather_station"]
            rows := t.rows.flatMap fun r =>
              let ms := wsd.rows.filter fun m =>
                decide (m.getD ki Value.null = r.getD ti Value.null)
              if ms.isEmpty then [r ++ [Value.null]]
              else ms.map fun m => r ++ [m.getD wi Value.null] } := by
    rw [weather_station_mapping]
    split
    next ki2 wi2 ti2 hki2 hwi2 hti2 =>
      rw [hki] at hki2
      rw [hwi] at hwi2
      rw [hti] at hti2
      cases hki2
      cases hwi2
      cases hti2
      rfl
    next hnone => rw [hki] at hnone; cases hnone
    next x hx hnone => rw [hwi] at hnone; cases hnone
    next x y hx hy hnone => rw [hti] at hnone; cases hnone
  have hsingle : ∀ r ∈ t.rows,
      (fun r => let ms := wsd.rows.filter fun m =>
          decide (m.getD ki Value.null = r.getD ti Value.null)
        if ms.isEmpty then [r ++ [Value.null]]
        else ms.map fun m => r ++ [m.getD wi Value.null]) r =
      [(fun r => r ++
        [match wsd.rows.filter (fun m =>
            decide (m.getD ki Value.null = r.getD ti Value.null)) with
         | [] => Value.null
         | m :: _ => m.getD wi Value.null]) r] := by
    intro r _
    rcases filter_key_unique wsd.rows ki (r.getD ti Value.null) huniq with hf | ⟨m, hf⟩
    · simp only [hf]
      rfl
    · simp only [hf]
      rfl
  have hrows : (t.rows.flatMap fun r =>
      let ms := wsd.rows.filter fun m =>
        decide (m.getD ki Value.null = r.getD ti Value.null)
      if ms.isEmpty then [r ++ [Value.null]]
      else ms.map fun m => r ++ [m.getD wi Value.null]) =
      t.rows.map fun r => r ++
        [match wsd.rows.filter (fun m =>
            decide (m.getD ki Value.null = r.getD ti Value.null)) with
         | [] => Value.null
         | m :: _ => m.getD wi Value.null] :=
    flatMap_eq_map _ _ t.rows hsingle
  refine ⟨_, hrun, rfl, ?_, ?_⟩
  · show (t.rows.flatMap _).length = t.rows.length
    rw [hrows, List.length_map]
  · show (t.rows.flatMap _) = _
    exact hrows

theorem weather_station_mapping_left_join_witness :
    colIdx "Field_ID" (Table.mk ["Field_ID", "Weather_station"]
        [[.int 1, .str "WS1"]]).cols = some 0 ∧
    colIdx "Weather_station" (Table.mk ["Field_ID", "Weather_station"]
        [[.int 1, .str "WS1"]]).cols = some 1 ∧
    colIdx "Field_ID" (Table.mk ["Field_ID", "Elevation"]
        [[.int 1, .int 10], [.int 5, .int 20]]).cols = some 0 ∧
    (("Weather_station" : String) ∉
      (Table.mk ["Field_ID", "Elevation"]
        [[.int 1, .int 10], [.int 5, .int 20]]).cols) ∧
    (((Table.mk ["Field_ID", "Weather_station"]
        [[.int 1, .str "WS1"]]).rows.map fun m => m.getD 0 Value.null).Nodup) ∧
    ∃ t2, weather_station_mapping
        (.ok (Table.mk ["Field_ID", "Weather_station"] [[.int 1, .str "WS1"]]))
        (Table.mk ["Field_ID", "Elevation"]
          [[.int 1, .int 10], [.int 5, .int 20]]) = .ok t2 ∧
      t2.cols = (Table.mk ["Field_ID", "Elevation"]
          [[.int 1, .int 10], [.int 5, .int 20]]).cols ++ ["Weather_station"] ∧
      t2.rows.length = (Table.mk ["Field_ID", "Elevation"]
          [[.int 1, .int 10], [.int 5, .int 20]]).rows.length ∧
      t2.rows = (Table.mk ["Field_ID", "Elevation"]
          [[.int 1, .int 10], [.int 5, .int 20]]).rows.map fun r => r ++
        [match (Table.mk ["Field_ID", "Weather_station"]
            [[.int 1, .str "WS1"]]).rows.filter (fun m =>
              decide (m.getD 0 Value.null = r.getD 0 Value.null)) with
         | [] => Value.null
         | m :: _ => m.getD 1 Value.null] :=
  ⟨by decide, by decide, by decide, by decide, by decide,
    weather_station_mapping_left_join
      (Table.mk ["Field_ID", "Weather_station"] [[.int 1, .str "WS1"]])
      (Table.mk ["Field_ID", "Elevation"] [[.int 1, .int 10], [.int 5, .int 20]])
      0 1 0 (by decide) (by decide) (by decide) (by decide) (by decide)⟩

/-! ### The fixed order of the pipeline -/

theorem apply_corrections_state_ok (vmap : List (String × String))
    (cn ac : String) (t t3 : Table) :
    apply_corrections_state vmap cn ac t = (none, t3) ↔
      apply_corrections vmap cn ac t = .ok t3 := by
  unfold apply_corrections apply_corrections_state
  cases h1 : colIdx ac t.cols with
  | none => simp [h1]
  | some ai =>
    cases h2 : absRows ai t.rows with
    | error e => simp [h1, h2]
    | ok rows1 =>
      cases h3 : colIdx cn t.cols with
      | none => simp [h1, h2, h3]
      | some ci => simp [h1, h2, h3]

/-- Claim C6, counterexample: when the post-rename table lacks `Crop_type`
(here because the swap-rename turned `Crop_type` into `Gone`),
`apply_corrections` raises `KeyError` at line 134 only after line 133 has
already committed the magnitude correction, so `process` leaves a mid-step
table with `Elevation` set to `3` — not the state produced by the rename,
the last step that completed successfully, where `Elevation` is `-3`. -/
theorem process_midstep_counterexample :
    rename_columns [("Crop_type", "Gone")]
        (Table.mk ["Field_ID", "Crop_type", "Elevation"]
          [[.int 1, .str "x", .int (-3)]]) =
      .ok (Table.mk ["Field_ID", "Gone", "Elevation"]
        [[.int 1, .str "x", .int (-3)]]) ∧
    process
        (.ok (Table.mk ["Field_ID", "Crop_type", "Elevation"]
          [[.int 1, .str "x", .int (-3)]]))
        [("Crop_type", "Gone")] []
        (.ok (Table.mk ["Field_ID", "Weather_station"] []))
        none =
      (some (Table.mk ["Field_ID", "Gone", "Elevation"]
          [[.int 1, .str "x", .int 3]]),
        some (.keyError "Crop_type")) ∧
    (Table.mk ["Field_ID", "Gone", "Elevation"] [[.int 1, .str "x", .int 3]]) ≠
      (Table.mk ["Field_ID", "Gone", "Elevation"] [[.int 1, .str "x", .int (-3)]]) := by
  refine ⟨by decide, by decide, by decide⟩

/-- Claim C6, amended: `process` runs exactly the four steps ingest, rename,
correct, enrich in that order, skipping and retrying nothing: if a step
fails, its error is surfaced unmodified and no later step runs; the table is
left as the failing step last wrote it — the pre-call table when ingestion
fails, the ingested table when the rename fails, the corrected table when
enrichment fails, but when `apply_corrections` fails the table is whatever
that step had already committed, which can include the magnitude correction
(a failure at the categorical column happens after line 133's assignment),
so it is not in general the state of the last step that completed
successfully.  When every step succeeds the result is the four-step
composition. -/
theorem process_pipeline (ingest fetched : Except PyError Table)
    (cmap vmap : List (String × String)) (df0 : Option Table) :
    (∀ e, ingest = .error e →
      process ingest cmap vmap fetched df0 = (df0, some e)) ∧
    (∀ t1 e, ingest = .ok t1 → rename_columns cmap t1 = .error e →
      process ingest cmap vmap fetched df0 = (some t1, some e)) ∧
    (∀ t1 t2 e td, ingest = .ok t1 → rename_columns cmap t1 = .ok t2 →
      apply_corrections_state vmap "Crop_type" "Elevation" t2 = (some e, td) →
      process ingest cmap vmap fetched df0 = (some td, some e)) ∧
    (∀ t1 t2 t3 e, ingest = .ok t1 → rename_columns cmap t1 = .ok t2 →
      apply_corrections_state vmap "Crop_type" "Elevation" t2 = (none, t3) →
      weather_station_mapping fetched t3 = .error e →
      process ingest cmap vmap fetched df0 = (some t3, some e)) ∧
    (∀ t1 t2 t3 t4, ingest = .ok t1 → rename_columns cmap t1 = .ok t2 →
      apply_corrections vmap "Crop_type" "Elevation" t2 = .ok t3 →
      weather_station_mapping fetched t3 = .ok t4 →
      process ingest cmap vmap fetched df0 = (some t4, none)) := by
  refine ⟨?_, ?_, ?_, ?_, ?_⟩
  · intro e h1
    subst h1
    rfl
  · intro t1 e h1 h2
    subst h1
    simp only [process, h2]
  · intro t1 t2 e td h1 h2 h3
    subst h1
    simp only [process, h2, h3]
  · intro t1 t2 t3 e h1 h2 h3 h4
    subst h1
    simp only [process, h2, h3, h4]
  · intro t1 t2 t3 t4 h1 h2 h3 h4
    subst h1
    have h3s : apply_corrections_state vmap "Crop_type" "Elevation" t2 = (none, t3) :=
      (apply_corrections_state_ok vmap "Crop_type" "Elevation" t2 t3).mpr h3
    simp only [process, h2, h3s, h4]

theorem process_pipeline_witness :
    (Except.ok (Table.mk ["Field_ID", "Crop_type", "Elevation", "A", "B"]
        [[.int 1, .str " maize", .int (-5), .int 0, .int 0]]) =
      Except.ok (ε := PyError) (Table.mk ["Field_ID", "Crop_type", "Elevation", "A", "B"]
        [[.int 1, .str " maize", .int (-5), .int 0, .int 0]])) ∧
    rename_columns [("A", "B")]
        (Table.mk ["Field_ID", "Crop_type", "Elevation", "A", "B"]
          [[.int 1, .str " maize", .int (-5), .int 0, .int 0]]) =
      .ok (Table.mk ["Field_ID", "Crop_type", "Elevation", "B", "A"]
        [[.int 1, .str " maize", .int (-5), .int 0, .int 0]]) ∧
    apply_corrections [("maize", "Maize")] "Crop_type" "Elevation"
        (Table.mk ["Field_ID", "Crop_type", "Elevation", "B", "A"]
          [[.int 1, .str " maize", .int (-5), .int 0, .int 0]]) =
      .ok (Table.mk ["Field_ID", "Crop_type", "Elevation", "B", "A"]
        [[.int 1, .str "Maize", .int 5, .int 0, .int 0]]) ∧
    weather_station_mapping
        (.ok (Table.mk ["Field_ID", "Weather_station"] [[.int 1, .str "WS1"]]))
        (Table.mk ["Field_ID", "Crop_type", "Elevation", "B", "A"]
          [[.int 1, .str "Maize", .int 5, .int 0, .int 0]]) =
      .ok (Table.mk
        ["Field_ID", "Crop_type", "Elevation", "B", "A", "Weather_station"]
        [[.int 1, .str "Maize", .int 5, .int 0, .int 0, .str "WS1"]]) ∧
    process
        (.ok (Table.mk ["Field_ID", "Crop_type", "Elevation", "A", "B"]
          [[.int 1, .str " maize", .int (-5), .int 0, .int 0]]))
        [("A", "B")] [("maize", "Maize")]
        (.ok (Table.mk ["Field_ID", "Weather_station"] [[.int 1, .str "WS1"]]))
        none =
      (some (Table.mk
        ["Field_ID", "Crop_type", "Elevation", "B", "A", "Weather_station"]
        [[.int 1, .str "Maize", .int 5, .int 0, .int 0, .str "WS1"]]), none) :=
  ⟨rfl, by decide, by decide, by decide,
    (process_pipeline
      (.ok (Table.mk ["Field_ID", "Crop_type", "Elevation", "A", "B"]
        [[.int 1, .str " maize", .int (-5), .int 0, .int 0]]))
      (.ok (Table.mk ["Field_ID", "Weather_station"] [[.int 1, .str "WS1"]]))
      [("A", "B")] [("maize", "Maize")] none).2.2.2.2
      (Table.mk ["Field_ID", "Crop_type", "Elevation", "A", "B"]
        [[.int 1, .str " maize", .int (-5), .int 0, .int 0]])
      (Table.mk ["Field_ID", "Crop_type", "Elevation", "B", "A"]
        [[.int 1, .str " maize", .int (-5), .int 0, .int 0]])
      (Table.mk ["Field_ID", "Crop_type", "Elevation", "B", "A"]
        [[.int 1, .str "Maize", .int 5, .int 0, .int 0]])
      (Table.mk
        ["Field_ID", "Crop_type", "Elevation", "B", "A", "Weather_station"]
        [[.int 1, .str "Maize", .int 5, .int 0, .int 0, .str "WS1"]])
      rfl (by decide) (by decide) (by decide)⟩

end FieldData
